import Mathlib

/-!
Verification of the EmailPrivacyRedactorAI redaction core.

The definitions below are a shallow embedding of the Python sources
(components/ocrspace_image_redactor.py, components/text_redactor.py,
components/mailpit_email_sender.py, components/resend_api_email_sender.py).
Remote services (OCR.space, the Groq language model) are modelled as
explicit outcome values passed in as arguments: the embedded functions
consume a remote outcome exactly the way the Python code consumes the
corresponding HTTP response.  Pixel buffers are modelled as total
functions from coordinates to a colour code; only coordinates inside
the declared width and height are meaningful, which models the clipping
PIL applies when drawing past the edge.  The field bufId models Python
object identity: PIL Image.copy allocates a fresh buffer, embedded here
as an increment of bufId, while in-place drawing keeps bufId fixed.
-/

/-- One OCR text box (a dict with keys text, x, y, width, height and the
optional key redaction_type in the source).  Coordinates are pixels with
top-left origin; the source stores Python numbers, embedded as Int. -/
structure TBox where
  text : String
  x : Int
  y : Int
  width : Int
  height : Int
  redaction_type : Option String
deriving DecidableEq

/-- The per-category enablement flags read off the Reflex state object via
getattr in the source (ocrspace_image_redactor.py lines 152-193 and 370-384,
text_redactor.py lines 40-63).  Field order follows the source. -/
structure Config where
  redact_name_enabled : Bool
  redact_email_enabled : Bool
  redact_phone_enabled : Bool
  redact_address_enabled : Bool
  redact_ssn_enabled : Bool
  redact_card_enabled : Bool
  redact_key_enabled : Bool
  redact_password_enabled : Bool
  redact_token_enabled : Bool
  redact_id_enabled : Bool
  redact_dollar_enabled : Bool
  redact_account_enabled : Bool
deriving DecidableEq

/-- The closed set of category labels the system knows
(ocrspace_image_redactor.py lines 371-384). -/
def knownCategories : List String :=
  ["name", "email", "phone", "address", "ssn", "credit_card",
   "api_key", "password", "token", "id", "dollar", "account"]

/-- The list enabled_types built in identify_sensitive_text_with_ai
(lines 148-193): built only when a state object is present (the whole
block is guarded by an if on state), in source order. -/
def enabledTypes : Option Config → List String
  | none => []
  | some c =>
    (if c.redact_name_enabled then ["name"] else [])
      ++ (if c.redact_email_enabled then ["email"] else [])
      ++ (if c.redact_phone_enabled then ["phone"] else [])
      ++ (if c.redact_address_enabled then ["address"] else [])
      ++ (if c.redact_ssn_enabled then ["ssn"] else [])
      ++ (if c.redact_card_enabled then ["credit_card"] else [])
      ++ (if c.redact_key_enabled then ["api_key"] else [])
      ++ (if c.redact_password_enabled then ["password"] else [])
      ++ (if c.redact_token_enabled then ["token"] else [])
      ++ (if c.redact_id_enabled then ["id"] else [])
      ++ (if c.redact_dollar_enabled then ["dollar"] else [])
      ++ (if c.redact_account_enabled then ["account"] else [])

/-- The dict lookup type_to_enabled.get(redaction_type, True) from
find_sensitive_boxes (lines 369-401): with a state present the dict maps
the twelve known categories to their flags, and any other key falls back
to the default True; with no state every key yields True. -/
def typeToEnabledGet (cfg : Option Config) (rt : String) : Bool :=
  match cfg with
  | none => true
  | some c =>
    if rt = "name" then c.redact_name_enabled
    else if rt = "email" then c.redact_email_enabled
    else if rt = "phone" then c.redact_phone_enabled
    else if rt = "address" then c.redact_address_enabled
    else if rt = "ssn" then c.redact_ssn_enabled
    else if rt = "credit_card" then c.redact_card_enabled
    else if rt = "api_key" then c.redact_key_enabled
    else if rt = "password" then c.redact_password_enabled
    else if rt = "token" then c.redact_token_enabled
    else if rt = "id" then c.redact_id_enabled
    else if rt = "dollar" then c.redact_dollar_enabled
    else if rt = "account" then c.redact_account_enabled
    else true

/-- Outcome of the Groq classification call made inside
identify_sensitive_text_with_ai: ok carries the parsed index-to-category
dict; exn stands for any raised error (transport, non-JSON body,
unparsable indices), all of which the except clause turns into an empty
dict (lines 289-296). -/
inductive AiOutcome
  | ok (m : List (Nat × String))
  | exn
deriving DecidableEq

/-- Result of identify_sensitive_text_with_ai together with whether the
remote service was contacted (the source reaches the httpx client only
after the early returns at lines 137-138 and 195-197). -/
structure AiResult where
  contacted : Bool
  map : List (Nat × String)
deriving DecidableEq

/-- identify_sensitive_text_with_ai (lines 126-296): empty box list or an
empty enabled-category list short-circuits to an empty map without any
remote call; otherwise the remote outcome is returned, with failures
degraded to an empty map. -/
def identify_sensitive_text_with_ai (cfg : Option Config) (text_boxes : List TBox)
    (remote : AiOutcome) : AiResult :=
  if text_boxes = [] then ⟨false, []⟩
  else if enabledTypes cfg = [] then ⟨false, []⟩
  else
    match remote with
    | .ok m => ⟨true, m⟩
    | .exn => ⟨true, []⟩

/-- merge_box_group (lines 332-356): a single box is returned as is; a
larger group becomes the bounding union, with texts space-joined and the
redaction_type of the first box kept.  The indices field built there is
always the empty list (a dict has no attribute named index), so it is
omitted here. -/
def merge_box_group : List TBox → TBox
  | [] => ⟨"", 0, 0, 0, 0, none⟩
  | [b] => b
  | b :: c :: t =>
    let rest := c :: t
    let minX := rest.foldl (fun a d => min a d.x) b.x
    let minY := rest.foldl (fun a d => min a d.y) b.y
    let maxX := rest.foldl (fun a d => max a (d.x + d.width)) (b.x + b.width)
    let maxY := rest.foldl (fun a d => max a (d.y + d.height)) (b.y + b.height)
    { text := String.intercalate " " ((b :: rest).map TBox.text),
      x := minX, y := minY,
      width := maxX - minX, height := maxY - minY,
      redaction_type := b.redaction_type }

/-- The category-specific gap bound of _merge_adjacent_sensitive_boxes
(lines 433-441), keyed on prev_box.get with default other. -/
def maxMergeDistance (prev : TBox) : Int :=
  let rt := prev.redaction_type.getD "other"
  if rt = "name" then 100
  else if rt = "phone" ∨ rt = "credit_card" then 15
  else 30

/-- The merge decision of _merge_adjacent_sensitive_boxes (lines 430-447)
for one candidate box against the last box of the current group.  The
source compares y_diff against height times 0.6; for the integer pixel
data involved that float comparison coincides with the exact rational
comparison 5 times y_diff against 3 times height used here. -/
def shouldMergeStep (prev next : TBox) : Bool :=
  let y_diff : Int := |next.y - prev.y|
  let x_distance : Int := next.x - (prev.x + prev.width)
  decide (5 * y_diff < 3 * prev.height)
    && decide (0 ≤ x_distance)
    && decide (x_distance < maxMergeDistance prev)
    && decide (next.redaction_type = prev.redaction_type)

/-- Flushing one accumulated group (lines 450-461): a singleton group is
appended unchanged, larger groups go through merge_box_group. -/
def flushGroup : List TBox → TBox
  | [b] => b
  | g => merge_box_group g

/-- The sort key lambda b: (b.y, b.x) used by both merge passes: the
lexicographic order on the pair (y, x). -/
def boxLe (a b : TBox) : Prop := a.y < b.y ∨ (a.y = b.y ∧ a.x ≤ b.x)

instance decBoxLe : DecidableRel boxLe := fun a b => by unfold boxLe; infer_instance

/-- sorted(boxes, key=lambda b: (b.y, b.x)).  Python sorted is a stable
sort on the total preorder boxLe, and a stable sort is extensionally
unique, so the stable insertion sort is the same function. -/
def sortBoxes (l : List TBox) : List TBox := l.insertionSort boxLe

/-- The grouping loop of _merge_adjacent_sensitive_boxes (lines 426-461):
the current group is cur ++ [prev] with prev its last element. -/
def mergeLoop : List TBox → TBox → List TBox → List TBox
  | cur, prev, [] => [flushGroup (cur ++ [prev])]
  | cur, prev, b :: bs =>
    if shouldMergeStep prev b then mergeLoop (cur ++ [prev]) b bs
    else flushGroup (cur ++ [prev]) :: mergeLoop [] b bs

/-- _merge_adjacent_sensitive_boxes (lines 413-463). -/
def merge_adjacent_sensitive_boxes (boxes : List TBox) : List TBox :=
  match sortBoxes boxes with
  | [] => []
  | b :: bs => mergeLoop [] b bs

/-- find_sensitive_boxes (lines 358-411): classify, keep the enumerated
boxes whose index the map classifies with an enabled type (tagging them
with their redaction_type), then merge adjacent same-type boxes. -/
def find_sensitive_boxes (cfg : Option Config) (text_boxes : List TBox)
    (remote : AiOutcome) : List TBox :=
  let m := (identify_sensitive_text_with_ai cfg text_boxes remote).map
  let sensitive := text_boxes.enum.filterMap (fun p =>
    match m.lookup p.1 with
    | some rt =>
      if typeToEnabledGet cfg rt then some { p.2 with redaction_type := some rt }
      else none
    | none => none)
  merge_adjacent_sensitive_boxes sensitive

/-- One word record inside the OCR.space TextOverlay payload
(WordText, Left, Top, Width, Height). -/
structure RawWord where
  wordText : String
  left : Int
  top : Int
  width : Int
  height : Int
deriving DecidableEq

/-- Outcome of the OCR.space call inside extract_text_with_boxes: exn
stands for any raised error (transport failure, timeout, or any raise
inside the try block), nonJson for a body that response.json cannot
parse, nonDict for parsed JSON that is not an object, and dict for a
parsed object carrying the IsErroredOnProcessing flag and the word lines
of the first parsed result (an absent or empty ParsedResults list is the
empty line list). -/
inductive OcrOutcome
  | exn
  | nonJson
  | nonDict
  | dict (errored : Bool) (lines : List (List RawWord))
deriving DecidableEq

/-- Python str.strip with no argument: remove leading and trailing
whitespace.  Written on the character list so that it is structurally
recursive and computes inside the kernel. -/
def pyStrip (s : String) : String :=
  ⟨((s.data.dropWhile Char.isWhitespace).reverse.dropWhile Char.isWhitespace).reverse⟩

/-- Python str.lower: lower-case each character (the data handled by
this program is ASCII, where the Python and Lean case maps agree).
Written on the character list so that it computes inside the kernel. -/
def pyLower (s : String) : String := ⟨s.data.map Char.toLower⟩

/-- extract_text_with_boxes (lines 33-124): every failure path returns
the empty list; on success each word is stripped and kept when nonempty,
in line-then-word order. -/
def extract_text_with_boxes : OcrOutcome → List TBox
  | .exn => []
  | .nonJson => []
  | .nonDict => []
  | .dict errored lines =>
    if errored then []
    else (lines.flatten).filterMap (fun w =>
      let t := pyStrip w.wordText
      if t = "" then none
      else some ⟨t, w.left, w.top, w.width, w.height, none⟩)

/-- A PIL image: bufId models Python object identity (copy allocates a
fresh buffer, in-place drawing keeps it), mode and format are the PIL
attributes of the same names, and pix gives the colour code of each
pixel; only coordinates below width and height are meaningful, which
models the clipping PIL applies when a drawing command reaches past the
edge of the buffer. -/
structure PImage where
  bufId : Nat
  width : Nat
  height : Nat
  mode : String
  format : String
  pix : Nat → Nat → Nat

/-- The colour code of the opaque fill (0, 0, 0) used for redaction. -/
def blackPx : Nat := 0

/-- PIL Image.copy: a fresh buffer with the same pixels. -/
def copyImage (img : PImage) : PImage := { img with bufId := img.bufId + 1 }

/-- ImageDraw.rectangle with corners x1 y1 x2 y2 (both corners included,
as PIL draws them) and a solid fill; pixels outside the buffer are
unaffected because only in-range coordinates are ever read. -/
def drawRect (img : PImage) (x1 y1 x2 y2 : Int) (c : Nat) : PImage :=
  { img with pix := fun i j =>
      if x1 ≤ (i : Int) ∧ (i : Int) ≤ x2 ∧ y1 ≤ (j : Int) ∧ (j : Int) ≤ y2 then c
      else img.pix i j }

/-- The body of the for loop of draw_redaction_boxes (lines 543-571) for
one sensitive box: pad by 2 with the top-left clamped at 0, fill a black
rectangle, then, when labels are shown and the box is wider than 40,
hand the placeholder label to the text renderer.  Font metrics (tW, tH)
and glyph rasterisation (dT) belong to PIL and are parameters; the label
anchor the source computes with float division is embedded with integer
division, and is opaque to the renderer parameter anyway. -/
def drawBoxOn (tW tH : String → Int) (dT : PImage → String → Int → Int → PImage)
    (labels : String → String) (show_labels : Bool) (img : PImage) (b : TBox) : PImage :=
  let x1 := max 0 (b.x - 2)
  let y1 := max 0 (b.y - 2)
  let x2 := b.x + b.width + 2
  let y2 := b.y + b.height + 2
  let img1 := drawRect img x1 y1 x2 y2 blackPx
  if show_labels && decide (40 < b.width) then
    let label := labels (b.redaction_type.getD "other")
    dT img1 label (x1 + (x2 - x1 - tW label) / 2) (y1 + (y2 - y1 - tH label) / 2)
  else img1

/-- draw_redaction_boxes (lines 465-573): copy the image, then draw each
sensitive box on the copy.  The labels argument stands for the
placeholder dict together with its get default (the source falls back to
a fixed [REDACTED] label for unknown categories). -/
def draw_redaction_boxes (tW tH : String → Int) (dT : PImage → String → Int → Int → PImage)
    (labels : String → String) (image : PImage) (sensitive_boxes : List TBox)
    (show_labels : Bool) : PImage :=
  sensitive_boxes.foldl (drawBoxOn tW tH dT labels show_labels) (copyImage image)

/-- What redact_image_from_base64 hands back: either the input base64
string untouched, or a freshly encoded redacted image. -/
inductive PipelineOut
  | original (s : String)
  | redacted (img : PImage)

/-- redact_image_from_base64 (lines 575-637).  decoded is the result of
base64-decoding and Image.open on the input string (none when that
raises, which the outer except turns into the original string); the
convert to RGB step is embedded as the mode change it performs (its
pixel transcoding is internal to PIL and never inspected here); saving
with format PNG stamps the output format. -/
def redact_image_from_base64 (tW tH : String → Int)
    (dT : PImage → String → Int → Int → PImage) (labels : String → String)
    (image_b64 : String) (decoded : Option PImage) (ocr : OcrOutcome)
    (ai : AiOutcome) (cfg : Option Config) : PipelineOut :=
  match decoded with
  | none => .original image_b64
  | some img0 =>
    let image := if img0.mode ≠ "RGB" then { img0 with mode := "RGB" } else img0
    let text_boxes := extract_text_with_boxes ocr
    if text_boxes = [] then .original image_b64
    else
      let sensitive := find_sensitive_boxes cfg text_boxes ai
      if sensitive = [] then .original image_b64
      else
        let redacted := draw_redaction_boxes tW tH dT labels image sensitive true
        .redacted { redacted with format := "PNG" }

/-- The redaction_instructions list of redact_text
(text_redactor.py lines 39-63), abstracted to the category names whose
instruction lines are appended; only its emptiness steers the code (it
selects which prompt is sent). -/
def redactionInstructionKinds (c : Config) : List String :=
  (if c.redact_name_enabled then ["name"] else [])
    ++ (if c.redact_email_enabled then ["email"] else [])
    ++ (if c.redact_phone_enabled then ["phone"] else [])
    ++ (if c.redact_address_enabled then ["address"] else [])
    ++ (if c.redact_ssn_enabled then ["ssn"] else [])
    ++ (if c.redact_card_enabled then ["credit_card"] else [])
    ++ (if c.redact_key_enabled then ["api_key"] else [])
    ++ (if c.redact_password_enabled then ["password"] else [])
    ++ (if c.redact_token_enabled then ["token"] else [])
    ++ (if c.redact_id_enabled then ["id"] else [])
    ++ (if c.redact_dollar_enabled then ["dollar"] else [])
    ++ (if c.redact_account_enabled then ["account"] else [])

/-- Outcome of the Groq chat call in redact_text: ok carries the content
field of the first choice when present (the source defaults it to the
original content), status is any non-200 reply, exn any raised error. -/
inductive GroqTextResp
  | ok (content : Option String)
  | status (code : Nat)
  | exn
deriving DecidableEq

/-- What redact_text leaves in state.redacted_content, together with
whether the remote service was contacted and whether the prompt sent was
the pass-through prompt of the empty-instructions branch. -/
structure TextRedactOutcome where
  contacted : Bool
  passThroughPrompt : Bool
  output : String
deriving DecidableEq

/-- The text-redaction core of redact_text (text_redactor.py lines
29-121): the instruction list decides only which prompt is posted — the
post happens in every case — and the stored result is the content of a
200 reply (defaulted to the input when the reply lacks content) and the
unchanged input on a non-200 reply or a raise. -/
def redact_text_core (c : Config) (content : String) (resp : GroqTextResp) :
    TextRedactOutcome :=
  let pass := decide (redactionInstructionKinds c = [])
  match resp with
  | .ok s => ⟨true, pass, s.getD content⟩
  | .status _ => ⟨true, pass, content⟩
  | .exn => ⟨true, pass, content⟩

/-- The lower-then-strip normalisation applied to each address in
deduplicate_email_addresses. -/
def normalizeEmail (s : String) : String := pyStrip (pyLower s)

/-- deduplicate_email_addresses of mailpit_email_sender.py (lines
19-39): an empty (Python-falsy) input skips normalisation, and a
nonempty normalised cc equal to the normalised to is dropped. -/
def deduplicate_email_addresses (to_email cc_email : String) : String × String :=
  let to_normalized := if to_email ≠ "" then normalizeEmail to_email else ""
  let cc_normalized := if cc_email ≠ "" then normalizeEmail cc_email else ""
  if cc_normalized ≠ "" ∧ cc_normalized = to_normalized then (to_email, "")
  else (to_email, cc_email)

/-- deduplicate_email_addresses of resend_api_email_sender.py (lines
12-32), textually identical to the mailpit copy. -/
def resend_deduplicate_email_addresses (to_email cc_email : String) : String × String :=
  let to_normalized := if to_email ≠ "" then normalizeEmail to_email else ""
  let cc_normalized := if cc_email ≠ "" then normalizeEmail cc_email else ""
  if cc_normalized ≠ "" ∧ cc_normalized = to_normalized then (to_email, "")
  else (to_email, cc_email)

/-- Geometric containment of the rectangle of b inside the rectangle of
m (top-left origin). -/
def rectContains (m b : TBox) : Prop :=
  m.x ≤ b.x ∧ m.y ≤ b.y ∧ b.x + b.width ≤ m.x + m.width
    ∧ b.y + b.height ≤ m.y + m.height

/-- Pixel-level identity of two images: same dimensions, same mode, same
colour at every coordinate. -/
def sameImage (a b : PImage) : Prop :=
  a.width = b.width ∧ a.height = b.height ∧ a.mode = b.mode
    ∧ ∀ i j, a.pix i j = b.pix i j

/-- Dimension and format contract of one pipeline result against the
input string and decoded input image: an untouched result is the input
string itself, a redacted result keeps the pixel dimensions of the
decoded input and is saved as PNG. -/
def pipelineOutSpec (b64 : String) (img : PImage) : PipelineOut → Prop
  | .original s => s = b64
  | .redacted o => o.width = img.width ∧ o.height = img.height ∧ o.format = "PNG"

/-- The format stamped on a redacted pipeline result, none for an
untouched one. -/
def pipelineOutFormat : PipelineOut → Option String
  | .original _ => none
  | .redacted o => some o.format

/-- A running foldl minimum is bounded by its seed. -/
lemma foldl_min_le_init (f : TBox → Int) :
    ∀ (l : List TBox) (a : Int), l.foldl (fun acc d => min acc (f d)) a ≤ a
  | [], a => le_refl a
  | c :: t, a => le_trans (foldl_min_le_init f t (min a (f c))) (min_le_left _ _)

/-- A running foldl minimum is bounded by every scanned element. -/
lemma foldl_min_le_mem (f : TBox → Int) :
    ∀ (l : List TBox) (a : Int) (b : TBox), b ∈ l →
      l.foldl (fun acc d => min acc (f d)) a ≤ f b := by
  intro l
  induction l with
  | nil => intro a b hb; cases hb
  | cons c t ih =>
    intro a b hb
    rcases List.mem_cons.mp hb with h | h
    · subst h
      exact le_trans (foldl_min_le_init f t (min a (f b))) (min_le_right _ _)
    · exact ih (min a (f c)) b h

/-- A running foldl minimum is its seed or the value of some element. -/
lemma foldl_min_attained (f : TBox → Int) :
    ∀ (l : List TBox) (a : Int),
      l.foldl (fun acc d => min acc (f d)) a = a
        ∨ ∃ b ∈ l, l.foldl (fun acc d => min acc (f d)) a = f b := by
  intro l
  induction l with
  | nil => intro a; exact Or.inl rfl
  | cons c t ih =>
    intro a
    rcases ih (min a (f c)) with h | ⟨b, hb, he⟩
    · rcases min_choice a (f c) with hm | hm
      · exact Or.inl (by rw [List.foldl_cons, h, hm])
      · exact Or.inr ⟨c, List.mem_cons_self _ _, by rw [List.foldl_cons, h, hm]⟩
    · exact Or.inr ⟨b, List.mem_cons_of_mem _ hb, by rw [List.foldl_cons, he]⟩

/-- A running foldl maximum is at least its seed. -/
lemma foldl_max_ge_init (f : TBox → Int) :
    ∀ (l : List TBox) (a : Int), a ≤ l.foldl (fun acc d => max acc (f d)) a
  | [], a => le_refl a
  | c :: t, a => le_trans (le_max_left _ _) (foldl_max_ge_init f t (max a (f c)))

/-- A running foldl maximum is at least every scanned element. -/
lemma foldl_max_ge_mem (f : TBox → Int) :
    ∀ (l : List TBox) (a : Int) (b : TBox), b ∈ l →
      f b ≤ l.foldl (fun acc d => max acc (f d)) a := by
  intro l
  induction l with
  | nil => intro a b hb; cases hb
  | cons c t ih =>
    intro a b hb
    rcases List.mem_cons.mp hb with h | h
    · subst h
      exact le_trans (le_max_right _ _) (foldl_max_ge_init f t (max a (f b)))
    · exact ih (max a (f c)) b h

/-- A running foldl maximum is its seed or the value of some element. -/
lemma foldl_max_attained (f : TBox → Int) :
    ∀ (l : List TBox) (a : Int),
      l.foldl (fun acc d => max acc (f d)) a = a
        ∨ ∃ b ∈ l, l.foldl (fun acc d => max acc (f d)) a = f b := by
  intro l
  induction l with
  | nil => intro a; exact Or.inl rfl
  | cons c t ih =>
    intro a
    rcases ih (max a (f c)) with h | ⟨b, hb, he⟩
    · rcases max_choice a (f c) with hm | hm
      · exact Or.inl (by rw [List.foldl_cons, h, hm])
      · exact Or.inr ⟨c, List.mem_cons_self _ _, by rw [List.foldl_cons, h, hm]⟩
    · exact Or.inr ⟨b, List.mem_cons_of_mem _ hb, by rw [List.foldl_cons, he]⟩

/-- The components of a merged group of at least two boxes. -/
lemma merge_box_group_cons_cons (b c : TBox) (t : List TBox) :
    merge_box_group (b :: c :: t) =
      { text := String.intercalate " " ((b :: c :: t).map TBox.text),
        x := (c :: t).foldl (fun a d => min a d.x) b.x,
        y := (c :: t).foldl (fun a d => min a d.y) b.y,
        width := (c :: t).foldl (fun a d => max a (d.x + d.width)) (b.x + b.width)
          - (c :: t).foldl (fun a d => min a d.x) b.x,
        height := (c :: t).foldl (fun a d => max a (d.y + d.height)) (b.y + b.height)
          - (c :: t).foldl (fun a d => min a d.y) b.y,
        redaction_type := b.redaction_type } := rfl

/-- The right edge of a merged group of at least two boxes is the foldl
maximum of the member right edges. -/
lemma merge_box_group_right (b c : TBox) (t : List TBox) :
    (merge_box_group (b :: c :: t)).x + (merge_box_group (b :: c :: t)).width
      = (c :: t).foldl (fun a d => max a (d.x + d.width)) (b.x + b.width) := by
  rw [merge_box_group_cons_cons]; dsimp only; omega

/-- The bottom edge of a merged group of at least two boxes is the foldl
maximum of the member bottom edges. -/
lemma merge_box_group_bottom (b c : TBox) (t : List TBox) :
    (merge_box_group (b :: c :: t)).y + (merge_box_group (b :: c :: t)).height
      = (c :: t).foldl (fun a d => max a (d.y + d.height)) (b.y + b.height) := by
  rw [merge_box_group_cons_cons]; dsimp only; omega

/-- The merged rectangle of a nonempty group contains every member. -/
lemma merge_box_group_contains :
    ∀ (g : List TBox), g ≠ [] → ∀ b ∈ g, rectContains (merge_box_group g) b := by
  intro g hg b hb
  match g with
  | [] => exact absurd rfl hg
  | [b0] =>
    rw [List.mem_singleton.mp hb]
    exact ⟨le_refl _, le_refl _, le_refl _, le_refl _⟩
  | b0 :: c :: t =>
    refine ⟨?_, ?_, ?_, ?_⟩
    · rw [merge_box_group_cons_cons]; dsimp only
      rcases List.mem_cons.mp hb with h | h
      · subst h; exact foldl_min_le_init _ _ _
      · exact foldl_min_le_mem _ _ _ _ h
    · rw [merge_box_group_cons_cons]; dsimp only
      rcases List.mem_cons.mp hb with h | h
      · subst h; exact foldl_min_le_init _ _ _
      · exact foldl_min_le_mem _ _ _ _ h
    · rw [merge_box_group_right]
      rcases List.mem_cons.mp hb with h | h
      · subst h; exact foldl_max_ge_init _ _ _
      · exact foldl_max_ge_mem _ _ _ _ h
    · rw [merge_box_group_bottom]
      rcases List.mem_cons.mp hb with h | h
      · subst h; exact foldl_max_ge_init _ _ _
      · exact foldl_max_ge_mem _ _ _ _ h

/-- The redaction_type of a merged nonempty group is that of its first
box. -/
lemma merge_box_group_rt (b0 : TBox) (rest : List TBox) :
    (merge_box_group (b0 :: rest)).redaction_type = b0.redaction_type := by
  cases rest <;> rfl

/-- The text of a merged nonempty group is the space-join of the member
texts in order. -/
lemma merge_box_group_text (b0 : TBox) (rest : List TBox) :
    (merge_box_group (b0 :: rest)).text
      = String.intercalate " " ((b0 :: rest).map TBox.text) := by
  cases rest with
  | nil => rfl
  | cons c t => rfl

/-- Flushing a group is the same function as merging it (merge_box_group
already returns a singleton unchanged). -/
lemma flushGroup_eq : ∀ g : List TBox, flushGroup g = merge_box_group g := by
  intro g
  match g with
  | [] => rfl
  | [b] => rfl
  | b :: c :: t => rfl

/-- The grouping loop cuts its input into consecutive nonempty groups:
its output is the image of those groups under flushGroup and the groups
concatenate back to the processed sequence. -/
lemma mergeLoop_spec :
    ∀ (rest cur : List TBox) (prev : TBox),
      ∃ groups : List (List TBox),
        (∀ g ∈ groups, g ≠ [])
          ∧ groups.flatten = cur ++ prev :: rest
          ∧ mergeLoop cur prev rest = groups.map flushGroup := by
  intro rest
  induction rest with
  | nil =>
    intro cur prev
    refine ⟨[cur ++ [prev]], ?_, by simp, rfl⟩
    intro g hg
    rw [List.mem_singleton.mp hg]
    simp
  | cons b bs ih =>
    intro cur prev
    by_cases h : shouldMergeStep prev b = true
    · obtain ⟨groups, hne, hj, hm⟩ := ih (cur ++ [prev]) b
      refine ⟨groups, hne, ?_, ?_⟩
      · rw [hj]; simp
      · rw [mergeLoop, if_pos h]; exact hm
    · obtain ⟨groups, hne, hj, hm⟩ := ih [] b
      refine ⟨(cur ++ [prev]) :: groups, ?_, ?_, ?_⟩
      · intro g hg
        rcases List.mem_cons.mp hg with hg | hg
        · subst hg; simp
        · exact hne g hg
      · rw [List.flatten_cons, hj]; simp
      · rw [mergeLoop, if_neg h, hm, List.map_cons]

/-- Every box in the output of the same-type merge pass takes its
redaction_type from some input box. -/
lemma merge_output_rt (l : List TBox) (m : TBox)
    (hm : m ∈ merge_adjacent_sensitive_boxes l) :
    ∃ b ∈ l, m.redaction_type = b.redaction_type := by
  unfold merge_adjacent_sensitive_boxes at hm
  cases hsort : sortBoxes l with
  | nil => rw [hsort] at hm; cases hm
  | cons b0 bs =>
    rw [hsort] at hm
    have hm2 : m ∈ mergeLoop [] b0 bs := hm
    obtain ⟨groups, hne, hj, hmap⟩ := mergeLoop_spec bs [] b0
    rw [hmap] at hm2
    clear hm
    rename' hm2 => hm
    obtain ⟨g, hg, hfl⟩ := List.mem_map.mp hm
    match g, hne g hg with
    | bh :: grest, _ =>
      have hrt : m.redaction_type = bh.redaction_type := by
        rw [← hfl, flushGroup_eq, merge_box_group_rt]
      have hmem : bh ∈ groups.flatten := List.mem_flatten.mpr ⟨_, hg, List.mem_cons_self _ _⟩
      rw [hj] at hmem
      have hsorted : bh ∈ sortBoxes l := by
        rw [hsort]; simpa using hmem
      exact ⟨bh, (List.perm_insertionSort boxLe l).mem_iff.mp hsorted, hrt⟩

/-- A known category that the get lookup reports enabled is a member of
the enabled_types list built from the same configuration. -/
lemma known_enabled_mem (cfg : Config) (rt : String) (hk : rt ∈ knownCategories)
    (he : typeToEnabledGet (some cfg) rt = true) : rt ∈ enabledTypes (some cfg) := by
  unfold knownCategories at hk
  fin_cases hk <;> simp [typeToEnabledGet] at he <;> simp [enabledTypes, he]

/-- Every box in the final sensitive list carries a label that the dict
get lookup reported enabled. -/
lemma find_sensitive_boxes_rt_enabled (cfg : Option Config) (tbs : List TBox)
    (remote : AiOutcome) (b : TBox) (hb : b ∈ find_sensitive_boxes cfg tbs remote) :
    ∃ rt0, b.redaction_type = some rt0 ∧ typeToEnabledGet cfg rt0 = true := by
  have hb2 : b ∈ merge_adjacent_sensitive_boxes (tbs.enum.filterMap (fun p =>
      match ((identify_sensitive_text_with_ai cfg tbs remote).map).lookup p.1 with
      | some rt0 =>
        if typeToEnabledGet cfg rt0 then some { p.2 with redaction_type := some rt0 }
        else none
      | none => none)) := hb
  obtain ⟨src, hsrc, hrteq⟩ := merge_output_rt _ b hb2
  rw [List.mem_filterMap] at hsrc
  obtain ⟨p, _, heq⟩ := hsrc
  revert heq
  cases ((identify_sensitive_text_with_ai cfg tbs remote).map).lookup p.1 with
  | none => intro heq; exact absurd heq (by simp)
  | some rt0 =>
    intro heq
    dsimp only at heq
    by_cases hen : typeToEnabledGet cfg rt0 = true
    · rw [if_pos hen] at heq
      refine ⟨rt0, ?_, hen⟩
      rw [hrteq, ← Option.some.inj heq]
    · rw [if_neg hen] at heq
      exact absurd heq (by simp)

/-- A configuration with every category disabled. -/
def cfgAllOff : Config :=
  ⟨false, false, false, false, false, false, false, false, false, false, false, false⟩

/-- A configuration with only the name category enabled. -/
def cfgOnlyName : Config :=
  ⟨true, false, false, false, false, false, false, false, false, false, false, false⟩

/-- A configuration with every category enabled. -/
def cfgAllOn : Config :=
  ⟨true, true, true, true, true, true, true, true, true, true, true, true⟩

/-- C1 counterexample: with only name enabled, the classifier emits the
label passport, which is outside the known category set; the local
filter defaults unknown labels to enabled, so the box survives into the
final sensitive-box list even though passport is not an enabled
category. -/
theorem c1_counterexample :
    ({ text := "x", x := 0, y := 0, width := 5, height := 5,
        redaction_type := some "passport" } : TBox)
      ∈ find_sensitive_boxes (some cfgOnlyName)
          [{ text := "x", x := 0, y := 0, width := 5, height := 5, redaction_type := none }]
          (.ok [(0, "passport")])
    ∧ "passport" ∉ enabledTypes (some cfgOnlyName) := by
  constructor
  · decide
  · decide

/-- C1 (amended): every category label attached to a box in the final
sensitive-box list that belongs to the twelve known categories is
enabled at call time — in particular a box the classifier maps to ssn
while ssn is disabled is absent — while labels outside the known set
pass the filter by its default and may appear. -/
theorem c1_category_containment_amended :
    (∀ (cfg : Config) (text_boxes : List TBox) (remote : AiOutcome) (b : TBox) (rt : String),
        b ∈ find_sensitive_boxes (some cfg) text_boxes remote →
        b.redaction_type = some rt →
        rt ∈ knownCategories →
        rt ∈ enabledTypes (some cfg))
    ∧ (∀ (cfg : Config) (text_boxes : List TBox) (remote : AiOutcome) (b : TBox),
        cfg.redact_ssn_enabled = false →
        b ∈ find_sensitive_boxes (some cfg) text_boxes remote →
        b.redaction_type ≠ some "ssn") := by
  constructor
  · intro cfg tbs remote b rt hb hrt hknown
    obtain ⟨rt0, hrt0, hen⟩ := find_sensitive_boxes_rt_enabled (some cfg) tbs remote b hb
    rw [hrt] at hrt0
    rw [Option.some.inj hrt0] at hknown hrt ⊢
    exact known_enabled_mem cfg rt0 hknown hen
  · intro cfg tbs remote b hf hb hssn
    obtain ⟨rt0, hrt0, hen⟩ := find_sensitive_boxes_rt_enabled (some cfg) tbs remote b hb
    rw [hssn] at hrt0
    rw [← Option.some.inj hrt0] at hen
    simp [typeToEnabledGet, hf] at hen

/-- C1 witness: the amended containment applied at a concrete input with
only email off: a box labelled name is in the output and name is in the
enabled set. -/
theorem c1_witness : "name" ∈ enabledTypes (some cfgOnlyName) :=
  c1_category_containment_amended.1 cfgOnlyName
    [{ text := "Jane", x := 0, y := 0, width := 5, height := 5, redaction_type := none }]
    (.ok [(0, "name")])
    { text := "Jane", x := 0, y := 0, width := 5, height := 5, redaction_type := some "name" }
    "name" (by decide) (by decide) (by decide)

/-- C2: with every category disabled the image-side classifier does
return an empty map without contacting the remote service, but the
text side still posts a (pass-through) prompt and stores whatever the
remote model answers: a 200 reply with body Tampered leaves Tampered,
not the input Hello, as the redacted text, violating the byte-for-byte
no-op guarantee the specification requires. -/
theorem c2_noop_code_eval :
    (redact_text_core cfgAllOff "Hello" (.ok (some "Tampered"))).output = "Tampered"
    ∧ (redact_text_core cfgAllOff "Hello" (.ok (some "Tampered"))).output ≠ "Hello"
    ∧ (redact_text_core cfgAllOff "Hello" (.ok (some "Tampered"))).contacted = true
    ∧ (redact_text_core cfgAllOff "Hello" (.ok (some "Tampered"))).passThroughPrompt = true
    ∧ identify_sensitive_text_with_ai (some cfgAllOff)
        [{ text := "a", x := 0, y := 0, width := 1, height := 1, redaction_type := none }]
        (.ok [(0, "name")]) = ⟨false, []⟩ := by
  exact ⟨rfl, by decide, rfl, by decide, by decide⟩

/-- C3: every OCR failure mode of extract_text_with_boxes yields the
empty list, and an empty extracted-box list makes the image pipeline
hand back the input base64 string untouched. -/
theorem c3_ocr_fail_open :
    (extract_text_with_boxes .exn = []
      ∧ extract_text_with_boxes .nonJson = []
      ∧ extract_text_with_boxes .nonDict = []
      ∧ (∀ lines, extract_text_with_boxes (.dict true lines) = []))
    ∧ (∀ (tW tH : String → Int) (dT : PImage → String → Int → Int → PImage)
        (labels : String → String) (b64 : String) (decoded : Option PImage)
        (ocr : OcrOutcome) (ai : AiOutcome) (cfg : Option Config),
        extract_text_with_boxes ocr = [] →
        redact_image_from_base64 tW tH dT labels b64 decoded ocr ai cfg
          = .original b64) := by
  refine ⟨⟨rfl, rfl, rfl, fun lines => rfl⟩, ?_⟩
  intro tW tH dT labels b64 decoded ocr ai cfg h
  cases decoded with
  | none => rfl
  | some img => simp [redact_image_from_base64, h]

/-- C3 witness: the fail-open conclusion at a concrete raised OCR call
against a concrete decoded image. -/
theorem c3_witness :
    redact_image_from_base64 (fun _ => 0) (fun _ => 0) (fun im _ _ _ => im) (fun _ => "")
      "abc" (some ⟨0, 10, 10, "RGB", "PNG", fun _ _ => 0⟩) .exn (.ok [(0, "name")])
      (some cfgAllOn) = .original "abc" :=
  c3_ocr_fail_open.2 (fun _ => 0) (fun _ => 0) (fun im _ _ _ => im) (fun _ => "")
    "abc" (some ⟨0, 10, 10, "RGB", "PNG", fun _ _ => 0⟩) .exn (.ok [(0, "name")])
    (some cfgAllOn) rfl

/-- The category-specific gap bound spelled out on the redaction_type
option itself. -/
lemma maxMergeDistance_cases (prev : TBox) :
    maxMergeDistance prev =
      if prev.redaction_type = some "name" then 100
      else if prev.redaction_type = some "phone"
          ∨ prev.redaction_type = some "credit_card" then 15
      else 30 := by
  unfold maxMergeDistance
  cases h : prev.redaction_type with
  | none => decide
  | some s => simp [Option.getD]

/-- C4: for two consecutive boxes of the identical category on the same
visual line (five times the absolute y difference below three times the
height of the previous box, the exact form of the 0.6 factor), the merge
decision holds exactly when the gap from the right edge of the previous
box to the left edge of the next is non-negative and strictly below the
category bound: 100 for name, 15 for phone and credit_card, 30
otherwise; and the four concrete scenarios behave as claimed. -/
theorem c4_merge_gap_thresholds :
    (∀ prev next : TBox,
        next.redaction_type = prev.redaction_type →
        5 * |next.y - prev.y| < 3 * prev.height →
        (shouldMergeStep prev next = true ↔
          (0 ≤ next.x - (prev.x + prev.width)
            ∧ next.x - (prev.x + prev.width) <
                (if prev.redaction_type = some "name" then 100
                 else if prev.redaction_type = some "phone"
                     ∨ prev.redaction_type = some "credit_card" then 15
                 else 30))))
    ∧ (merge_adjacent_sensitive_boxes
        [{ text := "555", x := 10, y := 0, width := 30, height := 10,
            redaction_type := some "phone" },
         { text := "1234", x := 42, y := 0, width := 20, height := 10,
            redaction_type := some "phone" }]).length = 1
    ∧ (merge_adjacent_sensitive_boxes
        [{ text := "555", x := 10, y := 0, width := 30, height := 10,
            redaction_type := some "phone" },
         { text := "1234", x := 60, y := 0, width := 20, height := 10,
            redaction_type := some "phone" }]).length = 2
    ∧ (merge_adjacent_sensitive_boxes
        [{ text := "Jane", x := 10, y := 0, width := 30, height := 10,
            redaction_type := some "name" },
         { text := "Doe", x := 130, y := 0, width := 40, height := 10,
            redaction_type := some "name" }]).length = 1
    ∧ (merge_adjacent_sensitive_boxes
        [{ text := "Jane", x := 10, y := 0, width := 30, height := 10,
            redaction_type := some "name" },
         { text := "Doe", x := 150, y := 0, width := 40, height := 10,
            redaction_type := some "name" }]).length = 2 := by
  refine ⟨?_, by decide, by decide, by decide, by decide⟩
  intro prev next hrt hy
  rw [← maxMergeDistance_cases]
  unfold shouldMergeStep
  simp only [Bool.and_eq_true, decide_eq_true_eq]
  constructor
  · rintro ⟨⟨⟨-, h0⟩, hlt⟩, -⟩
    exact ⟨h0, hlt⟩
  · rintro ⟨h0, hlt⟩
    exact ⟨⟨⟨hy, h0⟩, hlt⟩, hrt⟩

/-- C4 witness: the merge-decision characterisation applied to the
concrete phone pair with a 2 pixel gap. -/
theorem c4_witness :
    shouldMergeStep
        { text := "555", x := 10, y := 0, width := 30, height := 10,
          redaction_type := some "phone" }
        { text := "1234", x := 42, y := 0, width := 20, height := 10,
          redaction_type := some "phone" } = true
      ↔ (0 ≤ (2 : Int) ∧ (2 : Int) < 15) :=
  c4_merge_gap_thresholds.1
    { text := "555", x := 10, y := 0, width := 30, height := 10,
      redaction_type := some "phone" }
    { text := "1234", x := 42, y := 0, width := 20, height := 10,
      redaction_type := some "phone" } rfl (by decide)

/-- C5: for a nonempty merged group, the top-left coordinates are the
elementwise minimum of the members (a lower bound that is attained), the
bottom-right coordinates are the elementwise maximum (an upper bound
that is attained), the text is the space-joined member texts in order,
and the merged box carries the category of its first member, hence the
uniform category of all members when they agree. -/
theorem c5_box_union (bs : List TBox) (h : bs ≠ []) :
    (∀ b ∈ bs, (merge_box_group bs).x ≤ b.x ∧ (merge_box_group bs).y ≤ b.y
        ∧ b.x + b.width ≤ (merge_box_group bs).x + (merge_box_group bs).width
        ∧ b.y + b.height ≤ (merge_box_group bs).y + (merge_box_group bs).height)
    ∧ (∃ b ∈ bs, (merge_box_group bs).x = b.x)
    ∧ (∃ b ∈ bs, (merge_box_group bs).y = b.y)
    ∧ (∃ b ∈ bs, (merge_box_group bs).x + (merge_box_group bs).width = b.x + b.width)
    ∧ (∃ b ∈ bs, (merge_box_group bs).y + (merge_box_group bs).height = b.y + b.height)
    ∧ (merge_box_group bs).text = String.intercalate " " (bs.map TBox.text)
    ∧ (merge_box_group bs).redaction_type = (bs.head h).redaction_type
    ∧ ((∀ b ∈ bs, b.redaction_type = (bs.head h).redaction_type) →
        ∀ b ∈ bs, (merge_box_group bs).redaction_type = b.redaction_type) := by
  match bs, h with
  | b0 :: rest, _ =>
    refine ⟨fun b hb => merge_box_group_contains _ (by simp) b hb, ?_, ?_, ?_, ?_,
      merge_box_group_text b0 rest, merge_box_group_rt b0 rest, ?_⟩
    · cases rest with
      | nil => exact ⟨b0, List.mem_singleton_self b0, rfl⟩
      | cons c t =>
        rw [merge_box_group_cons_cons]
        rcases foldl_min_attained (fun d => d.x) (c :: t) b0.x with he | ⟨b, hb, he⟩
        · exact ⟨b0, List.mem_cons_self _ _, he⟩
        · exact ⟨b, List.mem_cons_of_mem _ hb, he⟩
    · cases rest with
      | nil => exact ⟨b0, List.mem_singleton_self b0, rfl⟩
      | cons c t =>
        rw [merge_box_group_cons_cons]
        rcases foldl_min_attained (fun d => d.y) (c :: t) b0.y with he | ⟨b, hb, he⟩
        · exact ⟨b0, List.mem_cons_self _ _, he⟩
        · exact ⟨b, List.mem_cons_of_mem _ hb, he⟩
    · cases rest with
      | nil => exact ⟨b0, List.mem_singleton_self b0, rfl⟩
      | cons c t =>
        rw [merge_box_group_right]
        rcases foldl_max_attained (fun d => d.x + d.width) (c :: t) (b0.x + b0.width)
          with he | ⟨b, hb, he⟩
        · exact ⟨b0, List.mem_cons_self _ _, he⟩
        · exact ⟨b, List.mem_cons_of_mem _ hb, he⟩
    · cases rest with
      | nil => exact ⟨b0, List.mem_singleton_self b0, rfl⟩
      | cons c t =>
        rw [merge_box_group_bottom]
        rcases foldl_max_attained (fun d => d.y + d.height) (c :: t) (b0.y + b0.height)
          with he | ⟨b, hb, he⟩
        · exact ⟨b0, List.mem_cons_self _ _, he⟩
        · exact ⟨b, List.mem_cons_of_mem _ hb, he⟩
    · intro huni b hb
      rw [merge_box_group_rt]
      exact (huni b hb).symm

/-- C5 witness: the attained minimum projection of the union property at
a concrete two-box group. -/
theorem c5_witness :
    ∃ b ∈ [({ text := "a", x := 7, y := 1, width := 3, height := 2,
                redaction_type := some "phone" } : TBox),
            { text := "b", x := 4, y := 2, width := 5, height := 2,
                redaction_type := some "phone" }],
      (merge_box_group
        [({ text := "a", x := 7, y := 1, width := 3, height := 2,
              redaction_type := some "phone" } : TBox),
          { text := "b", x := 4, y := 2, width := 5, height := 2,
              redaction_type := some "phone" }]).x = b.x :=
  (c5_box_union
    [({ text := "a", x := 7, y := 1, width := 3, height := 2,
          redaction_type := some "phone" } : TBox),
      { text := "b", x := 4, y := 2, width := 5, height := 2,
          redaction_type := some "phone" }] (by simp)).2.1

/-- C10: the same-type merge pass partitions its input: there is a list
of nonempty groups whose concatenation is a permutation of the input
(every input box lands in exactly one group), the output is exactly the
flush of those groups in order, a singleton group is returned as the box
itself, and the rectangle of each output box contains the rectangle of
every member of its group. -/
theorem c10_merge_partition (boxes : List TBox) :
    ∃ groups : List (List TBox),
      (∀ g ∈ groups, g ≠ [])
      ∧ (groups.flatten).Perm boxes
      ∧ merge_adjacent_sensitive_boxes boxes = groups.map flushGroup
      ∧ (∀ g ∈ groups, ∀ b ∈ g, rectContains (flushGroup g) b)
      ∧ (∀ b : TBox, flushGroup [b] = b) := by
  cases hsort : sortBoxes boxes with
  | nil =>
    refine ⟨[], by simp, ?_, ?_, by simp, fun b => rfl⟩
    · have : sortBoxes boxes = [] := hsort
      have hperm := List.perm_insertionSort boxLe boxes
      rw [show List.insertionSort boxLe boxes = sortBoxes boxes from rfl, hsort] at hperm
      simpa using hperm.symm
    · unfold merge_adjacent_sensitive_boxes
      rw [hsort]
      rfl
  | cons b0 bs =>
    obtain ⟨groups, hne, hj, hm⟩ := mergeLoop_spec bs [] b0
    refine ⟨groups, hne, ?_, ?_, ?_, fun b => rfl⟩
    · rw [hj]
      have hperm := List.perm_insertionSort boxLe boxes
      rw [show List.insertionSort boxLe boxes = sortBoxes boxes from rfl, hsort] at hperm
      simpa using hperm
    · unfold merge_adjacent_sensitive_boxes
      rw [hsort]
      exact hm
    · intro g hg b hb
      rw [flushGroup_eq]
      exact merge_box_group_contains g (hne g hg) b hb

/-- C10 witness: the partition statement instantiated at a concrete
two-box input. -/
theorem c10_witness :
    ∃ groups : List (List TBox),
      (∀ g ∈ groups, g ≠ [])
      ∧ (groups.flatten).Perm
          [({ text := "a", x := 0, y := 0, width := 3, height := 2,
                redaction_type := some "email" } : TBox),
            { text := "b", x := 50, y := 0, width := 5, height := 2,
                redaction_type := some "email" }]
      ∧ merge_adjacent_sensitive_boxes
          [({ text := "a", x := 0, y := 0, width := 3, height := 2,
                redaction_type := some "email" } : TBox),
            { text := "b", x := 50, y := 0, width := 5, height := 2,
                redaction_type := some "email" }] = groups.map flushGroup
      ∧ (∀ g ∈ groups, ∀ b ∈ g, rectContains (flushGroup g) b)
      ∧ (∀ b : TBox, flushGroup [b] = b) :=
  c10_merge_partition
    [({ text := "a", x := 0, y := 0, width := 3, height := 2,
          redaction_type := some "email" } : TBox),
      { text := "b", x := 50, y := 0, width := 5, height := 2,
          redaction_type := some "email" }]

/-- C6: inside the image bounds, the rectangle drawn for a box paints
exactly the pixels of the 2-padded box rectangle (the clamp of the
top-left at 0 is invisible to in-bounds pixels, whose coordinates are
already non-negative, and the right and bottom overhang is cut off by
the bounds themselves); the clamped corners are never negative, and for
a box at the image edge (0, 0) they clamp to exactly (0, 0). -/
theorem c6_padding_clamp :
    (∀ (img : PImage) (b : TBox) (i j : Nat), i < img.width → j < img.height →
        (drawRect img (max 0 (b.x - 2)) (max 0 (b.y - 2)) (b.x + b.width + 2)
            (b.y + b.height + 2) blackPx).pix i j
          = if b.x - 2 ≤ (i : Int) ∧ (i : Int) ≤ b.x + b.width + 2
                ∧ b.y - 2 ≤ (j : Int) ∧ (j : Int) ≤ b.y + b.height + 2
            then blackPx else img.pix i j)
    ∧ (∀ b : TBox, 0 ≤ max 0 (b.x - 2) ∧ 0 ≤ max 0 (b.y - 2))
    ∧ (∀ b : TBox, b.x = 0 → b.y = 0 → max 0 (b.x - 2) = 0 ∧ max 0 (b.y - 2) = 0) := by
  refine ⟨?_, fun b => ⟨le_max_left 0 _, le_max_left 0 _⟩, ?_⟩
  · intro img b i j hi hj
    have h0i : (0 : Int) ≤ (i : Int) := Int.natCast_nonneg i
    have h0j : (0 : Int) ≤ (j : Int) := Int.natCast_nonneg j
    simp [drawRect, max_le_iff, h0i, h0j]
  · intro b hx hy
    rw [hx, hy]
    exact ⟨by decide, by decide⟩

/-- C6 witness: the painted-region description at a concrete image,
box and in-bounds pixel. -/
theorem c6_witness :
    (drawRect ⟨0, 10, 10, "RGB", "PNG", fun _ _ => 9⟩
        (max 0 ((0 : Int) - 2)) (max 0 ((0 : Int) - 2)) (0 + 4 + 2) (0 + 3 + 2)
        blackPx).pix 1 1
      = if (0 : Int) - 2 ≤ ((1 : Nat) : Int) ∧ ((1 : Nat) : Int) ≤ 0 + 4 + 2
            ∧ (0 : Int) - 2 ≤ ((1 : Nat) : Int) ∧ ((1 : Nat) : Int) ≤ 0 + 3 + 2
        then blackPx
        else (⟨0, 10, 10, "RGB", "PNG", fun _ _ => 9⟩ : PImage).pix 1 1 :=
  c6_padding_clamp.1 ⟨0, 10, 10, "RGB", "PNG", fun _ _ => 9⟩
    { text := "a", x := 0, y := 0, width := 4, height := 3, redaction_type := some "name" }
    1 1 (by decide) (by decide)

/-- Drawing one box never changes which buffer is being drawn on,
provided the text renderer draws in place as PIL does. -/
lemma drawBoxOn_bufId (tW tH : String → Int) (dT : PImage → String → Int → Int → PImage)
    (labels : String → String) (sl : Bool)
    (hdT : ∀ im s x y, (dT im s x y).bufId = im.bufId) (im0 : PImage) (b : TBox) :
    (drawBoxOn tW tH dT labels sl im0 b).bufId = im0.bufId := by
  simp only [drawBoxOn]
  split
  · rw [hdT]; rfl
  · rfl

/-- The drawing fold keeps the buffer of its start image. -/
lemma foldl_drawBoxOn_bufId (tW tH : String → Int) (dT : PImage → String → Int → Int → PImage)
    (labels : String → String) (sl : Bool)
    (hdT : ∀ im s x y, (dT im s x y).bufId = im.bufId) :
    ∀ (boxes : List TBox) (im0 : PImage),
      (boxes.foldl (drawBoxOn tW tH dT labels sl) im0).bufId = im0.bufId := by
  intro boxes
  induction boxes with
  | nil => intro im0; rfl
  | cons b t ih =>
    intro im0
    rw [List.foldl_cons, ih, drawBoxOn_bufId tW tH dT labels sl hdT]

/-- C7: compositing with an empty sensitive-box list returns exactly the
copy of the input, which is pixel-identical to the input, and every call
returns the freshly copied buffer — never the buffer of the original
image the caller passed in — provided the text renderer draws in place
as PIL does. -/
theorem c7_empty_composite :
    ∀ (tW tH : String → Int) (dT : PImage → String → Int → Int → PImage)
      (labels : String → String) (img : PImage) (sl : Bool),
      draw_redaction_boxes tW tH dT labels img [] sl = copyImage img
      ∧ sameImage (draw_redaction_boxes tW tH dT labels img [] sl) img
      ∧ (draw_redaction_boxes tW tH dT labels img [] sl).bufId ≠ img.bufId
      ∧ (∀ boxes : List TBox,
          (∀ im s x y, (dT im s x y).bufId = im.bufId) →
          (draw_redaction_boxes tW tH dT labels img boxes sl).bufId = img.bufId + 1) := by
  intro tW tH dT labels img sl
  refine ⟨rfl, ⟨rfl, rfl, rfl, fun i j => rfl⟩, Nat.succ_ne_self img.bufId, ?_⟩
  intro boxes hdT
  unfold draw_redaction_boxes
  rw [foldl_drawBoxOn_bufId tW tH dT labels sl hdT boxes (copyImage img)]
  rfl

/-- C7 witness: a concrete nonempty call lands on the copied buffer,
distinct from the buffer of the input image. -/
theorem c7_witness :
    (draw_redaction_boxes (fun _ => 0) (fun _ => 0) (fun im _ _ _ => im) (fun _ => "")
        ⟨3, 8, 8, "RGB", "PNG", fun _ _ => 5⟩
        [{ text := "a", x := 1, y := 1, width := 2, height := 2,
            redaction_type := some "name" }] true).bufId = 3 + 1 :=
  (c7_empty_composite (fun _ => 0) (fun _ => 0) (fun im _ _ _ => im) (fun _ => "")
      ⟨3, 8, 8, "RGB", "PNG", fun _ _ => 5⟩ true).2.2.2
    [{ text := "a", x := 1, y := 1, width := 2, height := 2,
        redaction_type := some "name" }]
    (fun _ _ _ _ => rfl)

/-- Drawing one box never changes the dimensions, provided the text
renderer keeps them as PIL does. -/
lemma drawBoxOn_dims (tW tH : String → Int) (dT : PImage → String → Int → Int → PImage)
    (labels : String → String) (sl : Bool)
    (hdT : ∀ im s x y, (dT im s x y).width = im.width ∧ (dT im s x y).height = im.height)
    (im0 : PImage) (b : TBox) :
    (drawBoxOn tW tH dT labels sl im0 b).width = im0.width
      ∧ (drawBoxOn tW tH dT labels sl im0 b).height = im0.height := by
  simp only [drawBoxOn]
  split
  · exact ⟨by rw [(hdT _ _ _ _).1]; rfl, by rw [(hdT _ _ _ _).2]; rfl⟩
  · exact ⟨rfl, rfl⟩

/-- The drawing fold keeps the dimensions of its start image. -/
lemma foldl_drawBoxOn_dims (tW tH : String → Int) (dT : PImage → String → Int → Int → PImage)
    (labels : String → String) (sl : Bool)
    (hdT : ∀ im s x y, (dT im s x y).width = im.width ∧ (dT im s x y).height = im.height) :
    ∀ (boxes : List TBox) (im0 : PImage),
      (boxes.foldl (drawBoxOn tW tH dT labels sl) im0).width = im0.width
        ∧ (boxes.foldl (drawBoxOn tW tH dT labels sl) im0).height = im0.height := by
  intro boxes
  induction boxes with
  | nil => intro im0; exact ⟨rfl, rfl⟩
  | cons b t ih =>
    intro im0
    rw [List.foldl_cons]
    refine ⟨?_, ?_⟩
    · rw [(ih _).1, (drawBoxOn_dims tW tH dT labels sl hdT im0 b).1]
    · rw [(ih _).2, (drawBoxOn_dims tW tH dT labels sl hdT im0 b).2]

/-- C8 (amended): the pipeline keeps the pixel dimensions of the decoded
input image, but a redacted result is always saved as PNG, so its format
matches the input only when the input was itself PNG; an untouched
result is the input string itself. -/
theorem c8_dims_png_amended :
    ∀ (tW tH : String → Int) (dT : PImage → String → Int → Int → PImage)
      (labels : String → String) (b64 : String) (img : PImage) (ocr : OcrOutcome)
      (ai : AiOutcome) (cfg : Option Config),
      (∀ im s x y, (dT im s x y).width = im.width ∧ (dT im s x y).height = im.height) →
      pipelineOutSpec b64 img
        (redact_image_from_base64 tW tH dT labels b64 (some img) ocr ai cfg) := by
  intro tW tH dT labels b64 img ocr ai cfg hdT
  unfold redact_image_from_base64
  dsimp only
  by_cases h1 : extract_text_with_boxes ocr = []
  · rw [if_pos h1]; exact rfl
  · rw [if_neg h1]
    by_cases h2 : find_sensitive_boxes cfg (extract_text_with_boxes ocr) ai = []
    · rw [if_pos h2]; exact rfl
    · rw [if_neg h2]
      refine ⟨?_, ?_, rfl⟩
      · show (draw_redaction_boxes tW tH dT labels _ _ true).width = img.width
        unfold draw_redaction_boxes
        rw [(foldl_drawBoxOn_dims tW tH dT labels true hdT _ _).1]
        show (if img.mode ≠ "RGB" then { img with mode := "RGB" } else img).width = img.width
        split <;> rfl
      · show (draw_redaction_boxes tW tH dT labels _ _ true).height = img.height
        unfold draw_redaction_boxes
        rw [(foldl_drawBoxOn_dims tW tH dT labels true hdT _ _).2]
        show (if img.mode ≠ "RGB" then { img with mode := "RGB" } else img).height = img.height
        split <;> rfl

/-- C8 witness: the amended dimension-and-PNG contract at a concrete
run that reaches the drawing branch. -/
theorem c8_witness :
    pipelineOutSpec "abc" ⟨0, 100, 40, "RGB", "JPEG", fun _ _ => 7⟩
      (redact_image_from_base64 (fun _ => 0) (fun _ => 0) (fun im _ _ _ => im) (fun _ => "")
        "abc" (some ⟨0, 100, 40, "RGB", "JPEG", fun _ _ => 7⟩)
        (.dict false [[⟨"john", 5, 5, 20, 10⟩]]) (.ok [(0, "name")]) (some cfgAllOn)) :=
  c8_dims_png_amended (fun _ => 0) (fun _ => 0) (fun im _ _ _ => im) (fun _ => "")
    "abc" ⟨0, 100, 40, "RGB", "JPEG", fun _ _ => 7⟩
    (.dict false [[⟨"john", 5, 5, 20, 10⟩]]) (.ok [(0, "name")]) (some cfgAllOn)
    (fun _ _ _ _ => ⟨rfl, rfl⟩)

/-- C8 counterexample: a JPEG input that reaches the drawing branch
comes back stamped PNG, not JPEG — the output format is not the input
format. -/
theorem c8_counterexample :
    pipelineOutFormat
        (redact_image_from_base64 (fun _ => 0) (fun _ => 0) (fun im _ _ _ => im) (fun _ => "")
          "abc" (some ⟨0, 100, 40, "RGB", "JPEG", fun _ _ => 7⟩)
          (.dict false [[⟨"john", 5, 5, 20, 10⟩]]) (.ok [(0, "name")]) (some cfgAllOn))
      = some "PNG"
    ∧ (⟨0, 100, 40, "RGB", "JPEG", fun _ _ => 7⟩ : PImage).format = "JPEG"
    ∧ ("PNG" : String) ≠ "JPEG" := by
  exact ⟨by decide, rfl, by decide⟩

/-- C9: deduplication drops the cc address exactly when its normalised
form is nonempty and coincides with the normalised to address, and the
resend copy of the function is the same function as the mailpit copy. -/
theorem c9_dedup :
    (∀ to_email cc_email : String,
        deduplicate_email_addresses to_email cc_email =
          if normalizeEmail cc_email ≠ ""
              ∧ normalizeEmail cc_email = normalizeEmail to_email
          then (to_email, "") else (to_email, cc_email))
    ∧ (∀ to_email cc_email : String,
        resend_deduplicate_email_addresses to_email cc_email
          = deduplicate_email_addresses to_email cc_email) := by
  constructor
  · intro to_email cc_email
    have hT : (if to_email ≠ "" then normalizeEmail to_email else "")
        = normalizeEmail to_email := by
      split
      · rfl
      · next h => rw [of_not_not h]; rfl
    have hC : (if cc_email ≠ "" then normalizeEmail cc_email else "")
        = normalizeEmail cc_email := by
      split
      · rfl
      · next h => rw [of_not_not h]; rfl
    simp only [deduplicate_email_addresses]
    rw [hT, hC]
  · intro to_email cc_email
    rfl
